import Mathlib

/-
Verification of the string-join utility of the archible repository.

The repository holds two near-duplicate C++ implementations of a single
function, Util::JoinStrings, plus a main entry point and unit tests:

  * src/roles/dev/files/cplusplus/src/util/util.cc joins via
    std::views::join_with over the sequence followed by
    std::ranges::to<std::string>;
  * src/roles/ja-apex-dev/jc-cpp/files/cpp/src/util/util.cc checks for the
    empty sequence and otherwise runs std::accumulate over the tail of the
    sequence with the front element as the initial accumulator.

Both use the constant separator kJoinStringsSep = ", ".  A std::vector of
string_view fragments is modelled as a List String; std::string values are
modelled as String.
-/

namespace Dev

/-- Separator constant kJoinStringsSep of
src/roles/dev/files/cplusplus/src/util/util.cc. -/
def kJoinStringsSep : String := ", "

/-- Embedding of Util::JoinStrings of
src/roles/dev/files/cplusplus/src/util/util.cc, which evaluates
std::ranges::to<std::string>(strings | std::views::join_with(kJoinStringsSep)).
The join_with view yields the elements with the delimiter between each pair of
consecutive elements (List.intersperse); ranges::to<std::string> concatenates
the resulting fragments (String.join). -/
def JoinStrings (strings : List String) : String :=
  String.join (List.intersperse kJoinStringsSep strings)

end Dev

namespace Jc

/-- Separator constant kJoinStringsSep of
src/roles/ja-apex-dev/jc-cpp/files/cpp/src/util/util.cc. -/
def kJoinStringsSep : String := ", "

/-- Embedding of Util::JoinStrings of
src/roles/ja-apex-dev/jc-cpp/files/cpp/src/util/util.cc: an empty input
returns the empty string; otherwise std::accumulate folds
fun acc next => acc + kJoinStringsSep + next over the tail of the sequence,
starting from the front element. -/
def JoinStrings (strings : List String) : String :=
  match strings with
  | [] => ""
  | first :: rest =>
      rest.foldl (fun acc next => acc ++ kJoinStringsSep ++ next) first

end Jc

/-- Specification-side join, transcribed from the spec (section 4.1): the empty
sequence yields the empty string, and otherwise the elements are concatenated
in their given order with the literal separator ", " inserted strictly between
each adjacent pair.  Used to compare the two source implementations against
the specified behavior. -/
def specJoin : List String → String
  | [] => ""
  | [s] => s
  | s :: rest => s ++ ", " ++ specJoin rest

/-- Output written to standard output by main of
src/roles/dev/files/cplusplus/src/main.cc: the joined value of the fixed
sequence, followed by the newline that fmt::println appends. -/
def Dev.mainOutput : String := Dev.JoinStrings ["Hello", "World"] ++ "\n"

/-- Exit code of main of src/roles/dev/files/cplusplus/src/main.cc: main
falls off the end of its body, which in C++ returns 0. -/
def Dev.mainExitCode : Nat := 0

/-- Output written to standard output by main of
src/roles/ja-apex-dev/jc-cpp/files/cpp/src/main.cc. -/
def Jc.mainOutput : String := Jc.JoinStrings ["Hello", "World"] ++ "\n"

/-- Exit code of main of src/roles/ja-apex-dev/jc-cpp/files/cpp/src/main.cc. -/
def Jc.mainExitCode : Nat := 0

/-- Number of positions of a character list at which the two-character
separator ", " begins, i.e. the number of occurrences of the literal substring
", " (a list is free of the substring exactly when this count is 0). -/
def countOcc : List Char → Nat
  | c1 :: c2 :: t => (if c1 = ',' ∧ c2 = ' ' then 1 else 0) + countOcc (c2 :: t)
  | _ => 0

/-- Unfolding equation for specJoin on a sequence of at least two elements. -/
theorem specJoin_cons_cons (s t : String) (rest : List String) :
    specJoin (s :: t :: rest) = s ++ ", " ++ specJoin (t :: rest) := rfl

/-- The accumulate fold of the jc-cpp implementation computes specJoin of the
initial accumulator consed onto the folded list. -/
theorem jc_foldl_eq_specJoin (rest : List String) : ∀ first : String,
    rest.foldl (fun acc next => acc ++ Jc.kJoinStringsSep ++ next) first =
      specJoin (first :: rest) := by
  induction rest with
  | nil => intro first; rfl
  | cons y t ih =>
    intro first
    rw [List.foldl_cons, ih]
    cases t with
    | nil => rfl
    | cons z t2 =>
      simp only [specJoin_cons_cons, Jc.kJoinStringsSep, String.append_assoc]

/-- The jc-cpp implementation agrees with the specification-side join. -/
theorem jc_join_eq_specJoin (xs : List String) : Jc.JoinStrings xs = specJoin xs := by
  cases xs with
  | nil => rfl
  | cons first rest => exact jc_foldl_eq_specJoin rest first

/-- Unfolding equation for the dev implementation on a sequence of at least
two elements. -/
theorem dev_join_cons_cons (s t : String) (rest : List String) :
    Dev.JoinStrings (s :: t :: rest) = s ++ ", " ++ Dev.JoinStrings (t :: rest) := by
  apply String.ext
  simp [Dev.JoinStrings, Dev.kJoinStringsSep, List.intersperse_cons_cons]

/-- The dev implementation agrees with the specification-side join. -/
theorem dev_join_eq_specJoin (xs : List String) : Dev.JoinStrings xs = specJoin xs := by
  induction xs with
  | nil => rfl
  | cons s rest ih =>
    cases rest with
    | nil =>
      apply String.ext
      simp [Dev.JoinStrings, specJoin]
    | cons t r2 =>
      rw [dev_join_cons_cons, ih, specJoin_cons_cons]

/-- Character data of the separator. -/
theorem sep_data : (", " : String).data = [',', ' '] := rfl

/-- Length of the separator. -/
theorem sep_length : (", " : String).length = 2 := rfl

/-- Character data of specJoin on a sequence of at least two elements. -/
theorem specJoin_data_cons_cons (s t : String) (rest : List String) :
    (specJoin (s :: t :: rest)).data =
      s.data ++ ',' :: ' ' :: (specJoin (t :: rest)).data := by
  rw [specJoin_cons_cons]
  simp [String.data_append, sep_data]

/-- Occurrences of the separator in a list split around an inserted separator:
the boundary characters cannot complete a separator occurrence, so the counts
of the two sides add up with the inserted occurrence. -/
theorem countOcc_append_sep (cs ds : List Char) :
    countOcc (cs ++ ',' :: ' ' :: ds) = countOcc cs + 1 + countOcc ds := by
  induction cs with
  | nil =>
    cases ds with
    | nil => simp [countOcc]
    | cons d t => simp [countOcc]
  | cons c t ih =>
    cases t with
    | nil =>
      cases ds with
      | nil => simp [countOcc]
      | cons d t2 => simp [countOcc]
    | cons c2 t2 =>
      simp only [List.cons_append] at ih ⊢
      rw [countOcc, countOcc]
      omega

/-- Separator count of specJoin: one occurrence per adjacent pair when no
element holds an occurrence of its own. -/
theorem countOcc_specJoin (xs : List String) (hne : xs ≠ [])
    (hno : ∀ e ∈ xs, countOcc e.data = 0) :
    countOcc (specJoin xs).data = xs.length - 1 := by
  induction xs with
  | nil => exact absurd rfl hne
  | cons s rest ih =>
    cases rest with
    | nil =>
      have hs := hno s (by simp)
      simpa [specJoin] using hs
    | cons t r2 =>
      have hs := hno s (by simp)
      have hrest : ∀ e ∈ t :: r2, countOcc e.data = 0 := by
        intro e he
        exact hno e (by simp [he])
      have ihr := ih (by simp) hrest
      rw [specJoin_data_cons_cons, countOcc_append_sep, hs, ihr]
      simp only [List.length_cons]
      omega

/-- Appending non-empty fragment sequences splits specJoin around one
separator. -/
theorem specJoin_append (xs ys : List String) (hy : ys ≠ []) : ∀ s : String,
    specJoin ((s :: xs) ++ ys) = specJoin (s :: xs) ++ ", " ++ specJoin ys := by
  induction xs with
  | nil =>
    intro s
    cases ys with
    | nil => exact absurd rfl hy
    | cons y t => rfl
  | cons t r2 ih =>
    intro s
    show specJoin (s :: t :: (r2 ++ ys)) = specJoin (s :: t :: r2) ++ ", " ++ specJoin ys
    rw [specJoin_cons_cons, specJoin_cons_cons]
    have h2 := ih t
    rw [List.cons_append] at h2
    rw [h2]
    simp [String.append_assoc]

/-- Length of specJoin: the fragment lengths plus two characters per adjacent
pair. -/
theorem specJoin_length (xs : List String) : ∀ s : String,
    (specJoin (s :: xs)).length =
      ((s :: xs).map String.length).sum + 2 * ((s :: xs).length - 1) := by
  induction xs with
  | nil =>
    intro s
    simp [specJoin]
  | cons t r2 ih =>
    intro s
    rw [specJoin_cons_cons]
    have h2 := ih t
    simp only [String.length_append, sep_length, List.map_cons, List.sum_cons,
      List.length_cons] at h2 ⊢
    omega

/-- C1: for every non-empty input sequence of fragments, both versions of
Util::JoinStrings return the fragments concatenated in their given order with
the literal separator ", " inserted strictly between each adjacent pair
(specJoin), so an input of n elements yields exactly n-1 separator insertions
and no leading or trailing separator. -/
theorem C1_join_spec_nonempty (xs : List String) (_hne : xs ≠ []) :
    Dev.JoinStrings xs = specJoin xs ∧ Jc.JoinStrings xs = specJoin xs :=
  ⟨dev_join_eq_specJoin xs, jc_join_eq_specJoin xs⟩

/-- Witness for C1 at the concrete input of the repository's unit test. -/
theorem C1_join_spec_nonempty_witness :
    (["one", "two"] : List String) ≠ [] ∧
    (Dev.JoinStrings ["one", "two"] = specJoin ["one", "two"] ∧
     Jc.JoinStrings ["one", "two"] = specJoin ["one", "two"]) :=
  ⟨by decide, C1_join_spec_nonempty ["one", "two"] (by decide)⟩

/-- C2: the ranges join_with implementation and the accumulate-over-the-tail
implementation of Util::JoinStrings return identical results for every input
sequence. -/
theorem C2_implementations_agree (xs : List String) :
    Dev.JoinStrings xs = Jc.JoinStrings xs :=
  (dev_join_eq_specJoin xs).trans (jc_join_eq_specJoin xs).symm

/-- C3: both versions of JoinStrings applied to the empty sequence return the
empty string. -/
theorem C3_empty_input :
    Dev.JoinStrings [] = "" ∧ Jc.JoinStrings [] = "" :=
  ⟨rfl, rfl⟩

/-- C4: for every single-element input sequence, both versions of JoinStrings
return that element verbatim, with no separator emitted. -/
theorem C4_singleton (s : String) :
    Dev.JoinStrings [s] = s ∧ Jc.JoinStrings [s] = s :=
  ⟨dev_join_eq_specJoin [s], rfl⟩

/-- C5: for every input sequence of length n >= 1 in which no element itself
holds an occurrence of the substring ", ", the result of both versions of
JoinStrings holds exactly n-1 occurrences of the literal substring ", ". -/
theorem C5_separator_count (xs : List String) (hne : xs ≠ [])
    (hno : ∀ e ∈ xs, countOcc e.data = 0) :
    countOcc (Dev.JoinStrings xs).data = xs.length - 1 ∧
    countOcc (Jc.JoinStrings xs).data = xs.length - 1 := by
  rw [dev_join_eq_specJoin, jc_join_eq_specJoin]
  exact ⟨countOcc_specJoin xs hne hno, countOcc_specJoin xs hne hno⟩

/-- Witness for C5 at a concrete two-element input. -/
theorem C5_separator_count_witness :
    ((["one", "two"] : List String) ≠ [] ∧
     (∀ e ∈ (["one", "two"] : List String), countOcc e.data = 0)) ∧
    (countOcc (Dev.JoinStrings ["one", "two"]).data = 1 ∧
     countOcc (Jc.JoinStrings ["one", "two"]).data = 1) :=
  ⟨⟨by decide, by decide⟩, C5_separator_count ["one", "two"] (by decide) (by decide)⟩

/-- C6: empty-string elements are preserved: joining ["", "x"] yields ", x",
so an empty fragment contributes nothing but its adjacent separator is still
emitted. -/
theorem C6_empty_element_preserved :
    Dev.JoinStrings ["", "x"] = ", x" ∧ Jc.JoinStrings ["", "x"] = ", x" := by
  constructor <;> decide

/-- C7: JoinStrings is deterministic: two invocations on equal input
sequences yield identical results, for both versions.  The embedding is a
pure function on an immutable list, mirroring that the C++ code reads the
sequence through a const reference, performs no mutation, and touches no
state besides the immutable separator constant. -/
theorem C7_deterministic (xs ys : List String) (h : xs = ys) :
    Dev.JoinStrings xs = Dev.JoinStrings ys ∧
    Jc.JoinStrings xs = Jc.JoinStrings ys := by
  subst h
  exact ⟨rfl, rfl⟩

/-- Witness for C7 at a concrete input. -/
theorem C7_deterministic_witness :
    (["Hello", "World"] : List String) = ["Hello", "World"] ∧
    (Dev.JoinStrings ["Hello", "World"] = Dev.JoinStrings ["Hello", "World"] ∧
     Jc.JoinStrings ["Hello", "World"] = Jc.JoinStrings ["Hello", "World"]) :=
  ⟨rfl, C7_deterministic ["Hello", "World"] ["Hello", "World"] rfl⟩

/-- C8: JoinStrings is total: every sequence of fragments, the empty sequence
included, produces a defined result, the same one for both versions; no error
condition or failing branch is reachable. -/
theorem C8_total (xs : List String) :
    ∃ r : String, Dev.JoinStrings xs = r ∧ Jc.JoinStrings xs = r :=
  ⟨specJoin xs, dev_join_eq_specJoin xs, jc_join_eq_specJoin xs⟩

/-- C9: both command-line entry points construct the fixed sequence
["Hello", "World"], pass it to their JoinStrings, write "Hello, World"
followed by a newline to standard output, and exit with code 0. -/
theorem C9_main_behavior :
    Dev.mainOutput = "Hello, World\n" ∧ Dev.mainExitCode = 0 ∧
    Jc.mainOutput = "Hello, World\n" ∧ Jc.mainExitCode = 0 := by
  refine ⟨by decide, rfl, by decide, rfl⟩

/-- C10: JoinStrings is a concatenation homomorphism on non-empty sequences:
joining xs ++ ys equals joining xs, the separator, then joining ys; and the
result length on a non-empty n-element input is the sum of the fragment
lengths plus 2*(n-1).  Both versions. -/
theorem C10_concat_homomorphism (xs ys : List String) (hx : xs ≠ []) (hy : ys ≠ []) :
    (Dev.JoinStrings (xs ++ ys) = Dev.JoinStrings xs ++ ", " ++ Dev.JoinStrings ys ∧
     Jc.JoinStrings (xs ++ ys) = Jc.JoinStrings xs ++ ", " ++ Jc.JoinStrings ys) ∧
    ((Dev.JoinStrings xs).length = (xs.map String.length).sum + 2 * (xs.length - 1) ∧
     (Jc.JoinStrings xs).length = (xs.map String.length).sum + 2 * (xs.length - 1)) := by
  cases xs with
  | nil => exact absurd rfl hx
  | cons s xs2 =>
    simp only [dev_join_eq_specJoin, jc_join_eq_specJoin]
    exact ⟨⟨specJoin_append xs2 ys hy s, specJoin_append xs2 ys hy s⟩,
           specJoin_length xs2 s, specJoin_length xs2 s⟩

/-- Witness for C10 at concrete singleton inputs. -/
theorem C10_concat_homomorphism_witness :
    ((["a"] : List String) ≠ [] ∧ (["b"] : List String) ≠ []) ∧
    ((Dev.JoinStrings (["a"] ++ ["b"]) = Dev.JoinStrings ["a"] ++ ", " ++ Dev.JoinStrings ["b"] ∧
      Jc.JoinStrings (["a"] ++ ["b"]) = Jc.JoinStrings ["a"] ++ ", " ++ Jc.JoinStrings ["b"]) ∧
     ((Dev.JoinStrings ["a"]).length =
        ((["a"] : List String).map String.length).sum + 2 * ((["a"] : List String).length - 1) ∧
      (Jc.JoinStrings ["a"]).length =
        ((["a"] : List String).map String.length).sum + 2 * ((["a"] : List String).length - 1))) :=
  ⟨⟨by decide, by decide⟩, C10_concat_homomorphism ["a"] ["b"] (by decide) (by decide)⟩
